import Mathlib

/-!
Verification of the multistage retrieval pipeline's core algorithms:
multi-query deduplication with score boosting (src/agents/multi_query.py),
the parallel fan-out tool, the retrievers' SQL filter semantics
(src/retrieval/fts.py, src/retrieval/vector.py), the filter-extraction
comparison (evals/tasks/tool_params/runner.py) and the retrieval metrics
(evals/metrics/retrieval.py).

Scores are embedded as rationals, chunk identifiers as integers, Python
dicts (which preserve insertion order) as association lists, and Python's
stable `list.sort` as a stable insertion sort.
-/

/-- Embeds `RetrievedChunk` from src/agents/models.py.  `metadata` is an
association list standing for the Python dict; `speaker` defaults to the
configured host name, exactly as the dataclass default does. -/
structure RetrievedChunk where
  chunk_id : Int
  doc_id : Int
  text : String
  score : ℚ
  metadata : List (String × String)
  ord : Int
  speaker : String := "Dwarkesh Patel"
deriving DecidableEq, Repr

/-- The per-chunk aggregation record of `_deduplicate_chunks`:
`(best_chunk, occurrence_count, max_score)`. -/
abbrev DedupEntry := RetrievedChunk × Nat × ℚ

/-- `chunk_map` of `_deduplicate_chunks`: a Python dict keyed by chunk id,
modelled as an insertion-ordered association list. -/
abbrev ChunkMap := List (Int × DedupEntry)

/-- Dict lookup on the association list (first entry with the key). -/
def lookupEntry (id : Int) : ChunkMap → Option DedupEntry
  | [] => none
  | (k, e) :: rest => if k = id then some e else lookupEntry id rest

/-- Dict update `chunk_map[key] = f(old)`: rewrites every entry carrying the
key in place, preserving its position (keys are unique in any map the fold
below builds, so this matches the Python in-place update). -/
def updateEntry (id : Int) (f : DedupEntry → DedupEntry) (m : ChunkMap) : ChunkMap :=
  m.map (fun p => if p.1 = id then (p.1, f p.2) else p)

/-- One iteration of the chunk loop in `_deduplicate_chunks` (lines 60-70):
an existing key gets `count + 1` and `max(max_score, chunk.score)`, a new
key is appended with `(chunk, 1, chunk.score)`. -/
def dedupStep (m : ChunkMap) (c : RetrievedChunk) : ChunkMap :=
  match lookupEntry c.chunk_id m with
  | some _ =>
      updateEntry c.chunk_id (fun e => (e.1, e.2.1 + 1, max e.2.2 c.score)) m
  | none => m ++ [(c.chunk_id, (c, 1, c.score))]

/-- The results-by-query dict: sub-query string mapped to its chunk list,
in dict insertion order. -/
abbrev ResultsByQuery := List (String × List RetrievedChunk)

/-- The chunks of all sub-query result lists, in the order the nested
`for query, chunks ... for chunk in chunks` loop visits them. -/
def flattenResults (rq : ResultsByQuery) : List RetrievedChunk :=
  (rq.map Prod.snd).flatten

/-- The double loop of `_deduplicate_chunks` building `chunk_map`. -/
def buildChunkMap (rq : ResultsByQuery) : ChunkMap :=
  rq.foldl (fun m p => p.2.foldl dedupStep m) []

/-- Lines 83-96 of multi_query.py: the boosted chunk created from a map
entry.  All fields but the score come from the first-inserted chunk; the
score becomes `max_score * (1.0 + boost_factor * (count - 1))`; `speaker`
falls back to the dataclass default because the constructor omits it. -/
def mkBoosted (boost : ℚ) (e : DedupEntry) : RetrievedChunk :=
  { chunk_id := e.1.chunk_id
    doc_id := e.1.doc_id
    text := e.1.text
    score := e.2.2 * (1 + boost * ((e.2.1 : ℚ) - 1))
    metadata := e.1.metadata
    ord := e.1.ord }

/-- `boosted_chunks`: the map's entries, in dict iteration (= insertion)
order, each turned into a boosted chunk. -/
def boostedChunks (rq : ResultsByQuery) (boost : ℚ) : List RetrievedChunk :=
  (buildChunkMap rq).map (fun p => mkBoosted boost p.2)

/-- The comparison used by `boosted_chunks.sort(key=..., reverse=True)`:
non-increasing score.  Python's sort is stable, so the embedding uses
Mathlib's stable insertion sort with this relation. -/
def scoreGe (a b : RetrievedChunk) : Prop := b.score ≤ a.score

instance : DecidableRel scoreGe := fun a b => inferInstanceAs (Decidable (b.score ≤ a.score))

instance : IsTotal RetrievedChunk scoreGe := ⟨fun a b => le_total b.score a.score⟩

instance : IsTrans RetrievedChunk scoreGe := ⟨fun _ _ _ h h' => le_trans h' h⟩

/-- The statistics dict returned by `_deduplicate_chunks` (lines 103-110). -/
structure DedupStats where
  total_before_dedup : Nat
  unique_chunks : Nat
  duplicates_removed : Nat
  chunks_boosted : Nat
  max_occurrences : Nat
  chunks_returned : Nat
deriving DecidableEq, Repr

/-- `_deduplicate_chunks(results_by_query, max_returned=15, boost_factor=0.2)`
from src/agents/multi_query.py: aggregate by chunk id, boost, sort by score
descending (stable), truncate, and report statistics. -/
def deduplicateChunks (rq : ResultsByQuery) (maxReturned : Nat := 15)
    (boost : ℚ := 1/5) : List RetrievedChunk × DedupStats :=
  let chunkMap := buildChunkMap rq
  let boosted := boostedChunks rq boost
  let finalChunks := (boosted.insertionSort scoreGe).take maxReturned
  (finalChunks,
    { total_before_dedup := (flattenResults rq).length
      unique_chunks := chunkMap.length
      duplicates_removed := (flattenResults rq).length - chunkMap.length
      chunks_boosted := chunkMap.countP (fun p => 1 < p.2.2.1)
      max_occurrences := chunkMap.foldl (fun acc p => max acc p.2.2.1) 0
      chunks_returned := ((boosted.insertionSort scoreGe).take maxReturned).length })

/-! Specification-side views of the aggregation loop. -/

/-- The effect of processing one chunk on the map entry of its own key. -/
def stepEntry : Option DedupEntry → RetrievedChunk → Option DedupEntry
  | none, c => some (c, 1, c.score)
  | some e, c => some (e.1, e.2.1 + 1, max e.2.2 c.score)

/-- Folding the per-key effect over a list of same-key chunks. -/
def combineEntry (o : Option DedupEntry) (cs : List RetrievedChunk) : Option DedupEntry :=
  cs.foldl stepEntry o

/-- All occurrences of a chunk identifier across the sub-query results, in
processing order. -/
def occurrences (id : Int) (rq : ResultsByQuery) : List RetrievedChunk :=
  (flattenResults rq).filter (fun c => decide (c.chunk_id = id))

/-- Number of sub-query result lists that contain the identifier. -/
def numListsContaining (id : Int) (rq : ResultsByQuery) : Nat :=
  rq.countP (fun p => p.2.any (fun c => decide (c.chunk_id = id)))

/-- Highest score observed for the identifier (0 when it never occurs),
computed the way the fold in the code accumulates `max_score`. -/
def maxScoreIn (id : Int) (rq : ResultsByQuery) : ℚ :=
  match occurrences id rq with
  | [] => 0
  | c :: cs => cs.foldl (fun a c' => max a c'.score) c.score

/-- The merged chunk the deduplication produces for an identifier, if any. -/
def mergedChunk? (rq : ResultsByQuery) (boost : ℚ) (id : Int) : Option RetrievedChunk :=
  (boostedChunks rq boost).find? (fun c => decide (c.chunk_id = id))

/-- The ordering the specification prescribes for the merged list: score
descending with ties broken by chunk identifier ascending. -/
def claimTieOrder (a b : RetrievedChunk) : Prop :=
  b.score < a.score ∨ (a.score = b.score ∧ a.chunk_id ≤ b.chunk_id)

instance : DecidableRel claimTieOrder := fun a b => by
  unfold claimTieOrder
  infer_instance

/-- Concrete chunk builder for instantiating theorems on small inputs. -/
def exChunk (id : Int) (txt : String) (s : ℚ) : RetrievedChunk :=
  { chunk_id := id, doc_id := 1, text := txt, score := s, metadata := [], ord := 0 }

/-- Outcome of one sub-query retrieval: the chunk list, or the exception
message raised inside `retrieve_chunks`. -/
abbrev RetrievalOutcome := Except String (List RetrievedChunk)

/-- The `except` handler of `retrieve_all_sync` (lines 244-250): a failed
sub-query contributes an empty result list. -/
def outcomeChunks : RetrievalOutcome → List RetrievedChunk
  | .ok cs => cs
  | .error _ => []

/-- `retrieve_all_sync` run under a given completion order of the futures:
the results dict maps each query to its chunks (empty on failure).  The
argument list is the order in which `as_completed` yields the futures; the
claims about completion-order independence quantify over permutations of
the dispatched queries. -/
def fanout (f : String → RetrievalOutcome) (completionOrder : List String) :
    ResultsByQuery :=
  completionOrder.map (fun q => (q, outcomeChunks (f q)))

instance {ε α : Type} [DecidableEq ε] [DecidableEq α] : DecidableEq (Except ε α) := by
  intro x y
  cases x <;> cases y <;> simp [Except.error.injEq, Except.ok.injEq] <;> infer_instance

/-- Observable state of one `retrieve_for_queries` tool call: the reply the
model sees (either the tool-side error string or the deduplicated chunks
that get rendered into context), the captured sub-queries, and the results
dict. -/
structure ToolRun where
  reply : Except String (List RetrievedChunk)
  dispatched : List String
  results : ResultsByQuery
deriving DecidableEq

/-- `retrieve_for_queries` (multi_query.py lines 195-294): reject an empty
query list with a visible error string before any retrieval, truncate to
the first 5 queries, fan out, then deduplicate with boosting.  The final
string rendering of a successful reply is presentation only and is left as
the chunk list carried by `Except.ok`. -/
def retrieveForQueries (maxReturned : Nat) (boost : ℚ)
    (f : String → RetrievalOutcome) (queries : List String) : ToolRun :=
  if queries.length < 1 then
    { reply := .error "Error: At least one query is required."
      dispatched := []
      results := [] }
  else
    let qs := if queries.length > 5 then queries.take 5 else queries
    let results := fanout f qs
    { reply := .ok (deduplicateChunks results maxReturned boost).1
      dispatched := qs
      results := results }


/-- A chunk with its score field cleared, for stating that two occurrences
of the same chunk identifier agree on everything except the score. -/
def sansScore (c : RetrievedChunk) : RetrievedChunk := { c with score := 0 }

/-- A well-formedness property of fan-out results over a single store: any
two occurrences of the same chunk identifier agree on all fields except
possibly the score. -/
def ContentConsistent (rq : ResultsByQuery) : Prop :=
  ∀ c ∈ flattenResults rq, ∀ c' ∈ flattenResults rq,
    c.chunk_id = c'.chunk_id → sansScore c = sansScore c'

/-! ### Retriever SQL semantics (src/retrieval/fts.py, src/retrieval/vector.py) -/

/-- A chunk row joined with its document, as the retrieval SQL sees it.
`tsvMatches` stands for `c.tsv @@ <compiled tsquery>` for the query at hand
and `score` for `ts_rank` (fts) or `1 - (embedding <=> query)` (vector). -/
structure Row where
  chunk_id : Int
  doc_id : Int
  text : String
  ord : Int
  speaker : String
  published_at : Int
  doc_type : String
  source : String
  tsvMatches : Bool
  score : ℚ
deriving DecidableEq, Repr

/-- The filters dict the callers build (agents/helpers.py, evals harness):
it may carry a speaker key.  Dates are modelled as timestamps. -/
structure Filters where
  speaker : Option String := none
  start_date : Option Int := none
  end_date : Option Int := none
  doc_type : Option String := none
  source : Option String := none
deriving DecidableEq, Repr

/-- The WHERE clauses `_build_query` appends from the filters dict — fts.py
lines 156-174 and the identical vector.py lines 137-155: `published_at >=
start_date`, `published_at <= end_date`, `doc_type = %s`, `source = %s`.
No clause ever consults the speaker key. -/
def filterConds (fl : Filters) (r : Row) : Bool :=
  (match fl.start_date with
   | none => true
   | some s => decide (s ≤ r.published_at))
  && (match fl.end_date with
      | none => true
      | some e => decide (r.published_at ≤ e))
  && (match fl.doc_type with
      | none => true
      | some t => decide (r.doc_type = t))
  && (match fl.source with
      | none => true
      | some s => decide (r.source = s))

/-- The full WHERE clause of the fts query: tsvector match plus filters. -/
def ftsWhere (fl : Option Filters) (r : Row) : Bool :=
  r.tsvMatches && (match fl with
    | none => true
    | some f => filterConds f r)

/-- The full WHERE clause of the vector query: `WHERE TRUE` plus filters. -/
def vectorWhere (fl : Option Filters) (r : Row) : Bool :=
  match fl with
  | none => true
  | some f => filterConds f r

/-- `ORDER BY score DESC, c.id ASC` of both retrieval queries. -/
def rowOrder (a b : Row) : Prop :=
  b.score < a.score ∨ (a.score = b.score ∧ a.chunk_id ≤ b.chunk_id)

instance : DecidableRel rowOrder := fun a b => by
  unfold rowOrder
  infer_instance

instance : IsTotal Row rowOrder := ⟨fun a b => by
  unfold rowOrder
  rcases lt_trichotomy a.score b.score with h | h | h
  · exact Or.inr (Or.inl h)
  · rcases le_total a.chunk_id b.chunk_id with h' | h'
    · exact Or.inl (Or.inr ⟨h, h'⟩)
    · exact Or.inr (Or.inr ⟨h.symm, h'⟩)
  · exact Or.inl (Or.inl h)⟩

instance : IsTrans Row rowOrder := ⟨fun a b c hab hbc => by
  unfold rowOrder at *
  rcases hab with h1 | ⟨h1, h1'⟩
  · rcases hbc with h2 | ⟨h2, h2'⟩
    · exact Or.inl (lt_trans h2 h1)
    · exact Or.inl (h2 ▸ h1)
  · rcases hbc with h2 | ⟨h2, h2'⟩
    · refine Or.inl ?_
      rw [h1]
      exact h2
    · exact Or.inr ⟨h1.trans h2, le_trans h1' h2'⟩⟩

/-- The fts query over a table of rows: WHERE, ORDER BY, LIMIT n. -/
def ftsQuery (table : List Row) (fl : Option Filters) (n : Nat) : List Row :=
  ((table.filter (ftsWhere fl)).insertionSort rowOrder).take n

/-- The vector query over a table of rows: WHERE, ORDER BY, LIMIT n. -/
def vectorQuery (table : List Row) (fl : Option Filters) (n : Nat) : List Row :=
  ((table.filter (vectorWhere fl)).insertionSort rowOrder).take n

/-- Contiguous-substring test on character lists (Python `needle in hay`). -/
def isSeg (needle : List Char) : List Char → Bool
  | [] => needle.isEmpty
  | c :: t => needle.isPrefixOf (c :: t) || isSeg needle t

/-- Case-insensitive substring containment, the semantics the specification
assigns to the speaker filter. -/
def strContainsCI (hay needle : String) : Bool :=
  isSeg (needle.toList.map Char.toLower) (hay.toList.map Char.toLower)

/-- A fully populated row for concrete instantiations. -/
def exRow (speaker : String) (pub : Int) : Row :=
  { chunk_id := 1, doc_id := 1, text := "t", ord := 0, speaker := speaker,
    published_at := pub, doc_type := "transcript", source := "youtube",
    tsvMatches := true, score := 1 }

/-! ### Filter-extraction comparison (evals/tasks/tool_params/runner.py) -/

/-- The five filter fields compared by `_compare_filters`; used both for the
expected filters of an eval case and the captured actual filters. -/
structure FilterValues where
  speaker : Option String := none
  start_date : Option String := none
  end_date : Option String := none
  source : Option String := none
  doc_type : Option String := none
deriving DecidableEq, Repr

/-- Python's `.strip()`: drop leading and trailing whitespace. -/
def stripChars (l : List Char) : List Char :=
  ((l.dropWhile Char.isWhitespace).reverse.dropWhile Char.isWhitespace).reverse

/-- `_normalize_filter_value`: `str(value).strip().lower()`, None preserved.
Normalized values are kept as character lists. -/
def normalizeFilterValue : Option String → Option (List Char)
  | none => none
  | some v => some ((stripChars v.toList).map Char.toLower)

/-- Python's `needle in hay` on strings (contiguous substring). -/
def pySubstr (needle hay : List Char) : Bool :=
  isSeg needle hay

/-- The per-field match verdicts of `_compare_filters`. -/
structure FilterMatches where
  speaker : Bool
  start_date : Bool
  end_date : Bool
  source : Bool
  doc_type : Bool
deriving DecidableEq, Repr

/-- The date-field branch of `_compare_filters` (lines 94-111): both absent
is a match, one-sided presence is a mismatch, both present compare the
four-character prefixes `expected_date[:4]` and `str(actual_date)[:4]`. -/
def compareDateField : Option String → Option String → Bool
  | none, none => true
  | none, some _ => false
  | some _, none => false
  | some e, some a => decide (e.toList.take 4 = a.toList.take 4)

/-- `_compare_filters` (runner.py lines 62-134): speaker compares normalized
values by substring in either direction; source and doc_type only test
whether the normalized expected value is contained in the normalized actual
value; dates compare year prefixes; overall is the conjunction. -/
def compareFilters (expected actual : FilterValues) : FilterMatches × Bool :=
  let speakerMatch :=
    match normalizeFilterValue expected.speaker, normalizeFilterValue actual.speaker with
    | none, none => true
    | none, some _ => false
    | some _, none => false
    | some e, some a => pySubstr e a || pySubstr a e
  let sourceMatch :=
    match normalizeFilterValue expected.source, normalizeFilterValue actual.source with
    | none, none => true
    | some e, some a => pySubstr e a
    | _, _ => false
  let docTypeMatch :=
    match normalizeFilterValue expected.doc_type, normalizeFilterValue actual.doc_type with
    | none, none => true
    | some e, some a => pySubstr e a
    | _, _ => false
  let m : FilterMatches :=
    { speaker := speakerMatch
      start_date := compareDateField expected.start_date actual.start_date
      end_date := compareDateField expected.end_date actual.end_date
      source := sourceMatch
      doc_type := docTypeMatch }
  (m, m.speaker && m.start_date && m.end_date && m.source && m.doc_type)

/-! ### Retrieval metrics (evals/metrics/retrieval.py) -/

/-- `recall_at_k`: relevant items among the top-k over the ground-truth
size; 0 on an empty ground truth or empty retrieval. -/
def recall_at_k (retrieved ground_truth : List Int) (k : Nat) : ℚ :=
  if ground_truth = [] then 0
  else if retrieved = [] then 0
  else ((retrieved.take k).countP (fun x => decide (x ∈ ground_truth)) : ℚ) /
    (ground_truth.length : ℚ)

/-- `precision_at_k`: relevant items among the top-k over `len(top_k)`. -/
def precision_at_k (retrieved ground_truth : List Int) (k : Nat) : ℚ :=
  if retrieved = [] then 0
  else if ground_truth = [] then 0
  else ((retrieved.take k).countP (fun x => decide (x ∈ ground_truth)) : ℚ) /
    ((retrieved.take k).length : ℚ)

/-- `hit_rate`: 1 iff any ground-truth item appears in the top-k. -/
def hit_rate (retrieved ground_truth : List Int) (k : Nat) : ℚ :=
  if retrieved = [] ∨ ground_truth = [] then 0
  else if (retrieved.take k).any (fun x => decide (x ∈ ground_truth)) then 1 else 0

/-- The scan of `mrr`: 1-indexed rank of the first relevant item. -/
def mrrAux (gt : List Int) (rank : Nat) : List Int → Option ℚ
  | [] => none
  | x :: xs => if x ∈ gt then some (1 / (rank : ℚ)) else mrrAux gt (rank + 1) xs

/-- `mrr`: reciprocal rank of the first relevant item, None when there is no
match or either list is empty. -/
def mrr (retrieved ground_truth : List Int) : Option ℚ :=
  if retrieved = [] ∨ ground_truth = [] then none
  else mrrAux ground_truth 1 retrieved

/-- The DCG loop of `ndcg_at_k`: `1/log2(rank+1)` for each relevant item,
ranks 1-indexed. -/
noncomputable def dcgAux (gt : List Int) : Nat → List Int → ℝ
  | _, [] => 0
  | rank, x :: xs =>
      (if x ∈ gt then 1 / Real.logb 2 ((rank : ℝ) + 1) else 0) + dcgAux gt (rank + 1) xs

/-- The IDCG sum of `ndcg_at_k`: `n` consecutive fully-relevant ranks
starting at `rank`. -/
noncomputable def idcgAux : Nat → Nat → ℝ
  | _, 0 => 0
  | rank, n + 1 => 1 / Real.logb 2 ((rank : ℝ) + 1) + idcgAux (rank + 1) n

open scoped Classical in
/-- `ndcg_at_k` (retrieval.py lines 190-242): binary-relevance DCG over the
top-k divided by the ideal DCG of `min(|ground_truth|, k)` relevant ranks,
with 0 returned on empty inputs or a zero DCG or IDCG. -/
noncomputable def ndcg_at_k (retrieved ground_truth : List Int) (k : Nat) : ℝ :=
  if retrieved = [] ∨ ground_truth = [] then 0
  else
    let dcg := dcgAux ground_truth 1 (retrieved.take k)
    if dcg = 0 then 0
    else
      let idcg := idcgAux 1 (min ground_truth.length k)
      if idcg = 0 then 0 else dcg / idcg

/-! ### Properties of the deduplication fold -/

theorem updateEntry_cons (id : Int) (f : DedupEntry → DedupEntry) (k : Int) (e : DedupEntry)
    (rest : ChunkMap) :
    updateEntry id f ((k, e) :: rest) =
      (if k = id then (k, f e) else (k, e)) :: updateEntry id f rest := by
  by_cases h : k = id <;> simp [updateEntry, h]

theorem lookupEntry_cons (id k : Int) (e : DedupEntry) (rest : ChunkMap) :
    lookupEntry id ((k, e) :: rest) = if k = id then some e else lookupEntry id rest := rfl

theorem lookupEntry_updateEntry (id id' : Int) (f : DedupEntry → DedupEntry) (m : ChunkMap) :
    lookupEntry id (updateEntry id' f m) =
      if id' = id then (lookupEntry id m).map f else lookupEntry id m := by
  induction m with
  | nil =>
      simp only [updateEntry, List.map_nil, lookupEntry]
      split <;> rfl
  | cons p rest ih =>
      obtain ⟨k, e⟩ := p
      rw [updateEntry_cons]
      by_cases hk : k = id'
      · rw [if_pos hk]
        by_cases hid : k = id
        · subst hk; subst hid
          simp [lookupEntry_cons]
        · subst hk
          simp [lookupEntry_cons, hid, ih]
      · rw [if_neg hk]
        by_cases hid : k = id
        · subst hid
          have hne : ¬ id' = k := fun h => hk h.symm
          simp [lookupEntry_cons, hne]
        · simp [lookupEntry_cons, hid, ih]

theorem lookupEntry_append_single (id k : Int) (e : DedupEntry) (m : ChunkMap) :
    lookupEntry id (m ++ [(k, e)]) =
      match lookupEntry id m with
      | some x => some x
      | none => if k = id then some e else none := by
  induction m with
  | nil => simp [lookupEntry]
  | cons p rest ih =>
      obtain ⟨k', e'⟩ := p
      by_cases h : k' = id <;> simp [lookupEntry, h, ih]

theorem lookupEntry_none_iff (id : Int) (m : ChunkMap) :
    lookupEntry id m = none ↔ id ∉ m.map Prod.fst := by
  induction m with
  | nil => simp [lookupEntry]
  | cons p rest ih =>
      obtain ⟨k, e⟩ := p
      by_cases h : k = id
      · subst h
        simp [lookupEntry]
      · simp only [lookupEntry, if_neg h, List.map_cons, List.mem_cons, ih]
        constructor
        · rintro hni (h1 | h2)
          · exact h h1.symm
          · exact hni h2
        · intro hni h2
          exact hni (Or.inr h2)

theorem lookupEntry_dedupStep (m : ChunkMap) (c : RetrievedChunk) (id : Int) :
    lookupEntry id (dedupStep m c) =
      if c.chunk_id = id then stepEntry (lookupEntry id m) c
      else lookupEntry id m := by
  unfold dedupStep
  by_cases hid : c.chunk_id = id
  · subst hid
    cases hl : lookupEntry c.chunk_id m with
    | some e =>
        simp [hl, lookupEntry_updateEntry, stepEntry]
    | none =>
        simp [hl, lookupEntry_append_single, stepEntry]
  · cases hl : lookupEntry c.chunk_id m with
    | some e =>
        simp [hl, lookupEntry_updateEntry, hid]
    | none =>
        simp only [hl, lookupEntry_append_single, if_neg hid]
        cases lookupEntry id m <;> simp

theorem lookupEntry_foldl (l : List RetrievedChunk) (m : ChunkMap) (id : Int) :
    lookupEntry id (l.foldl dedupStep m) =
      combineEntry (lookupEntry id m) (l.filter (fun c => decide (c.chunk_id = id))) := by
  induction l generalizing m with
  | nil => simp [combineEntry]
  | cons c l ih =>
      by_cases hid : c.chunk_id = id
      · simp only [List.foldl_cons, ih, lookupEntry_dedupStep, hid, if_pos]
        simp [hid, combineEntry]
      · simp only [List.foldl_cons, ih, lookupEntry_dedupStep, hid, if_neg]
        simp [hid]

theorem foldl_dedupStep_flatten (rq : ResultsByQuery) :
    ∀ m : ChunkMap,
      rq.foldl (fun m p => p.2.foldl dedupStep m) m = (flattenResults rq).foldl dedupStep m := by
  induction rq with
  | nil => intro m; simp [flattenResults]
  | cons p rq ih =>
      intro m
      simp only [List.foldl_cons, flattenResults, List.map_cons, List.flatten_cons,
        List.foldl_append]
      simpa [flattenResults] using ih (p.2.foldl dedupStep m)

theorem buildChunkMap_eq_foldl (rq : ResultsByQuery) :
    buildChunkMap rq = (flattenResults rq).foldl dedupStep [] :=
  foldl_dedupStep_flatten rq []

theorem combineEntry_some (cs : List RetrievedChunk) :
    ∀ e : DedupEntry, combineEntry (some e) cs =
      some (e.1, e.2.1 + cs.length, cs.foldl (fun a c => max a c.score) e.2.2) := by
  induction cs with
  | nil => intro e; simp [combineEntry]
  | cons c cs ih =>
      intro e
      simp only [combineEntry, List.foldl_cons, stepEntry] at ih ⊢
      rw [ih]
      simp only [Option.some.injEq, Prod.mk.injEq, List.length_cons, List.foldl_cons,
        true_and, and_true]
      omega

theorem lookupEntry_buildChunkMap (rq : ResultsByQuery) (id : Int)
    (c₀ : RetrievedChunk) (cs : List RetrievedChunk)
    (hocc : occurrences id rq = c₀ :: cs) :
    lookupEntry id (buildChunkMap rq) =
      some (c₀, 1 + cs.length, cs.foldl (fun a c => max a c.score) c₀.score) := by
  rw [buildChunkMap_eq_foldl, lookupEntry_foldl]
  have : lookupEntry id ([] : ChunkMap) = none := rfl
  rw [this]
  unfold occurrences at hocc
  rw [hocc]
  have : combineEntry none (c₀ :: cs) = combineEntry (some (c₀, 1, c₀.score)) cs := by
    simp [combineEntry, stepEntry]
  rw [this, combineEntry_some]

theorem lookupEntry_buildChunkMap_none (rq : ResultsByQuery) (id : Int)
    (hocc : occurrences id rq = []) :
    lookupEntry id (buildChunkMap rq) = none := by
  rw [buildChunkMap_eq_foldl, lookupEntry_foldl]
  have h : lookupEntry id ([] : ChunkMap) = none := rfl
  rw [h]
  unfold occurrences at hocc
  rw [hocc]
  rfl

theorem foldl_dedupStep_key_consistent (l : List RetrievedChunk) :
    ∀ m : ChunkMap, (∀ p ∈ m, p.2.1.chunk_id = p.1) →
      ∀ p ∈ l.foldl dedupStep m, p.2.1.chunk_id = p.1 := by
  induction l with
  | nil => intro m hm; exact hm
  | cons c l ih =>
      intro m hm
      refine ih (dedupStep m c) ?_
      intro p hp
      unfold dedupStep at hp
      cases hl : lookupEntry c.chunk_id m with
      | some e =>
          rw [hl] at hp
          simp only [updateEntry, List.mem_map] at hp
          obtain ⟨q, hq, hpq⟩ := hp
          by_cases h : q.1 = c.chunk_id
          · rw [if_pos h] at hpq
            subst hpq
            exact hm q hq
          · rw [if_neg h] at hpq
            subst hpq
            exact hm q hq
      | none =>
          rw [hl] at hp
          rcases List.mem_append.mp hp with h | h
          · exact hm p h
          · rcases List.mem_singleton.mp h with rfl
            rfl

theorem keys_updateEntry (id : Int) (f : DedupEntry → DedupEntry) (m : ChunkMap) :
    (updateEntry id f m).map Prod.fst = m.map Prod.fst := by
  induction m with
  | nil => rfl
  | cons p rest ih =>
      obtain ⟨k, e⟩ := p
      rw [updateEntry_cons]
      by_cases h : k = id <;> simp [h, ih]

theorem foldl_dedupStep_keys_nodup (l : List RetrievedChunk) :
    ∀ m : ChunkMap, (m.map Prod.fst).Nodup → ((l.foldl dedupStep m).map Prod.fst).Nodup := by
  induction l with
  | nil => intro m hm; exact hm
  | cons c l ih =>
      intro m hm
      refine ih (dedupStep m c) ?_
      unfold dedupStep
      cases hl : lookupEntry c.chunk_id m with
      | some e => rw [keys_updateEntry]; exact hm
      | none =>
          have hnotin : c.chunk_id ∉ m.map Prod.fst := (lookupEntry_none_iff _ _).mp hl
          simp [List.nodup_append, hm, hnotin]

theorem buildChunkMap_key_consistent (rq : ResultsByQuery) :
    ∀ p ∈ buildChunkMap rq, p.2.1.chunk_id = p.1 := by
  rw [buildChunkMap_eq_foldl]
  exact foldl_dedupStep_key_consistent _ [] (by simp)

theorem buildChunkMap_keys_nodup (rq : ResultsByQuery) :
    ((buildChunkMap rq).map Prod.fst).Nodup := by
  rw [buildChunkMap_eq_foldl]
  exact foldl_dedupStep_keys_nodup _ [] (by simp)

theorem lookupEntry_of_mem_of_nodup (m : ChunkMap) (k : Int) (e : DedupEntry)
    (hnd : (m.map Prod.fst).Nodup) (hmem : (k, e) ∈ m) :
    lookupEntry k m = some e := by
  induction m with
  | nil => cases hmem
  | cons p rest ih =>
      obtain ⟨k', e'⟩ := p
      simp only [List.map_cons, List.nodup_cons] at hnd
      rcases List.mem_cons.mp hmem with h | h
      · injection h with h1 h2
        subst h1
        subst h2
        rw [lookupEntry_cons, if_pos rfl]
      · by_cases hk : k' = k
        · subst hk
          exact absurd (List.mem_map_of_mem Prod.fst h) hnd.1
        · rw [lookupEntry_cons, if_neg hk]
          exact ih hnd.2 h

theorem mem_of_lookupEntry (m : ChunkMap) (k : Int) (e : DedupEntry)
    (hl : lookupEntry k m = some e) : (k, e) ∈ m := by
  induction m with
  | nil => cases hl
  | cons p rest ih =>
      obtain ⟨k', e'⟩ := p
      rw [lookupEntry_cons] at hl
      by_cases h : k' = k
      · rw [if_pos h] at hl
        injection hl with hl
        subst h; subst hl
        exact List.mem_cons_self _ _
      · rw [if_neg h] at hl
        exact List.mem_cons_of_mem _ (ih hl)

theorem find?_mkBoosted (boost : ℚ) (m : ChunkMap)
    (hkey : ∀ p ∈ m, p.2.1.chunk_id = p.1) (id : Int) :
    (m.map (fun p => mkBoosted boost p.2)).find? (fun c => decide (c.chunk_id = id)) =
      (lookupEntry id m).map (mkBoosted boost) := by
  induction m with
  | nil => rfl
  | cons p rest ih =>
      obtain ⟨k, e⟩ := p
      have hk : e.1.chunk_id = k := hkey (k, e) (List.mem_cons_self _ _)
      have hrest : ∀ p ∈ rest, p.2.1.chunk_id = p.1 :=
        fun p hp => hkey p (List.mem_cons_of_mem _ hp)
      have hchunk : (mkBoosted boost e).chunk_id = k := by simp [mkBoosted, hk]
      by_cases h : k = id
      · simp [List.find?_cons, hchunk, h, lookupEntry_cons]
      · simp [List.find?_cons, hchunk, h, lookupEntry_cons, ih hrest]

theorem boostedChunks_map_chunk_id (rq : ResultsByQuery) (boost : ℚ) :
    (boostedChunks rq boost).map (·.chunk_id) = (buildChunkMap rq).map Prod.fst := by
  unfold boostedChunks
  rw [List.map_map]
  refine List.map_congr_left ?_
  intro p hp
  simpa [mkBoosted] using buildChunkMap_key_consistent rq p hp

theorem mergedChunk?_eq_lookup (rq : ResultsByQuery) (boost : ℚ) (id : Int) :
    mergedChunk? rq boost id = (lookupEntry id (buildChunkMap rq)).map (mkBoosted boost) := by
  unfold mergedChunk? boostedChunks
  exact find?_mkBoosted boost _ (buildChunkMap_key_consistent rq) id

theorem countP_chunk_id_of_nodup (l : List RetrievedChunk) (id : Int)
    (h : (l.map (·.chunk_id)).Nodup) :
    l.countP (fun c => decide (c.chunk_id = id)) =
      if l.any (fun c => decide (c.chunk_id = id)) then 1 else 0 := by
  induction l with
  | nil => rfl
  | cons c t ih =>
      simp only [List.map_cons, List.nodup_cons] at h
      by_cases hc : c.chunk_id = id
      · have hzero : t.countP (fun c => decide (c.chunk_id = id)) = 0 := by
          rw [List.countP_eq_zero]
          intro a ha
          simp only [decide_eq_true_eq]
          intro haid
          exact h.1 (haid.trans hc.symm ▸ List.mem_map_of_mem (·.chunk_id) ha)
        rw [List.countP_cons_of_pos _ _ (by simpa using hc), hzero]
        simp [List.any_cons, hc]
      · rw [List.countP_cons_of_neg _ _ (by simpa using hc), ih h.2]
        simp [List.any_cons, hc]

theorem occurrences_length_eq_numLists (rq : ResultsByQuery)
    (hnd : ∀ p ∈ rq, (p.2.map (·.chunk_id)).Nodup) (id : Int) :
    (occurrences id rq).length = numListsContaining id rq := by
  induction rq with
  | nil => rfl
  | cons p rq ih =>
      have hp : (p.2.map (·.chunk_id)).Nodup := hnd p (List.mem_cons_self _ _)
      have hrq : ∀ q ∈ rq, (q.2.map (·.chunk_id)).Nodup :=
        fun q hq => hnd q (List.mem_cons_of_mem _ hq)
      unfold occurrences flattenResults numListsContaining at *
      simp only [List.map_cons, List.flatten_cons, List.filter_append, List.length_append,
        List.countP_cons]
      rw [← List.countP_eq_length_filter, ih hrq, countP_chunk_id_of_nodup p.2 id hp]
      by_cases h : p.2.any (fun c => decide (c.chunk_id = id))
      · simp only [h, if_true, if_pos]
        omega
      · simp only [h, if_false, Bool.false_eq_true]
        omega

/-! ### Claim theorems: deduplication -/

theorem deduplicateChunks_fst (rq : ResultsByQuery) (maxReturned : Nat) (boost : ℚ) :
    (deduplicateChunks rq maxReturned boost).1 =
      ((boostedChunks rq boost).insertionSort scoreGe).take maxReturned := rfl

/-- C1: for every results-by-query mapping whose individual result lists
carry pairwise-distinct chunk identifiers, the deduplication merges a chunk
identifier occurring in `k` of the lists with highest observed score `s`
into a chunk with score `s * (1 + boost * (k - 1))`.  The 0.6/0.8 → 0.96
instance of the claim is the witness below. -/
theorem multiQuery_boost_formula (rq : ResultsByQuery) (boost : ℚ) (id : Int)
    (hnd : ∀ p ∈ rq, (p.2.map (·.chunk_id)).Nodup)
    (hocc : occurrences id rq ≠ []) :
    (mergedChunk? rq boost id).map (·.score) =
      some (maxScoreIn id rq * (1 + boost * ((numListsContaining id rq : ℚ) - 1))) := by
  obtain ⟨c₀, cs, hocc'⟩ : ∃ c₀ cs, occurrences id rq = c₀ :: cs := by
    cases h : occurrences id rq with
    | nil => exact absurd h hocc
    | cons c₀ cs => exact ⟨c₀, cs, rfl⟩
  rw [mergedChunk?_eq_lookup, lookupEntry_buildChunkMap rq id c₀ cs hocc']
  rw [← occurrences_length_eq_numLists rq hnd id, hocc']
  unfold maxScoreIn
  rw [hocc']
  simp only [Option.map_some', mkBoosted, List.length_cons, Option.some.injEq]
  push_cast
  ring

theorem multiQuery_boost_formula_witness :
    (∀ p ∈ ([("q1", [exChunk 7 "c" (3/5)]), ("q2", [exChunk 7 "c" (4/5)])] : ResultsByQuery),
        (p.2.map (·.chunk_id)).Nodup)
    ∧ occurrences 7 [("q1", [exChunk 7 "c" (3/5)]), ("q2", [exChunk 7 "c" (4/5)])] ≠ []
    ∧ (mergedChunk? [("q1", [exChunk 7 "c" (3/5)]), ("q2", [exChunk 7 "c" (4/5)])] (1/5) 7).map
        (·.score) = some (24/25) := by
  refine ⟨by decide, by decide, ?_⟩
  rw [multiQuery_boost_formula _ (1/5) 7 (by decide) (by decide)]
  norm_num [maxScoreIn, occurrences, flattenResults, numListsContaining, exChunk]

/-- C2 (amended): the deduplicated list is sorted by merged score in
non-increasing order and has length at most `max_returned` (default 15);
ties are kept in first-occurrence order, not re-broken by chunk id. -/
theorem multiQuery_dedup_sorted_and_bounded (rq : ResultsByQuery) (maxReturned : Nat)
    (boost : ℚ) :
    List.Sorted scoreGe (deduplicateChunks rq maxReturned boost).1 ∧
      (deduplicateChunks rq maxReturned boost).1.length ≤ maxReturned := by
  constructor
  · rw [deduplicateChunks_fst]
    exact List.Pairwise.sublist (List.take_sublist _ _)
      (List.sorted_insertionSort scoreGe (boostedChunks rq boost))
  · rw [deduplicateChunks_fst, List.length_take]
    exact min_le_left _ _

/-- C2 counterexample: with two chunks of equal merged score arriving with
identifiers 2 then 1, the output keeps them in arrival order [2, 1] — it is
not tie-broken by chunk identifier ascending as the claim states. -/
theorem multiQuery_dedup_tiebreak_cex :
    ¬ List.Pairwise claimTieOrder
      (deduplicateChunks [("q", [exChunk 2 "a" (1/2), exChunk 1 "b" (1/2)])] 15 (1/5)).1 := by
  norm_num [deduplicateChunks, boostedChunks, buildChunkMap, dedupStep, lookupEntry,
    updateEntry, mkBoosted, exChunk, List.insertionSort, List.orderedInsert, claimTieOrder,
    scoreGe, List.pairwise_cons]

/-- C10: the merged chunk for an identifier copies `doc_id`, `text`,
`metadata` and `ord` from the first occurrence processed — not necessarily
the occurrence carrying the highest score — recomputing only the score, and
every identifier appears at most once in the deduplicated output. -/
theorem multiQuery_merged_fields_from_first (rq : ResultsByQuery) (maxReturned : Nat)
    (boost : ℚ) (id : Int) (c₀ : RetrievedChunk) (cs : List RetrievedChunk)
    (hocc : occurrences id rq = c₀ :: cs) :
    mergedChunk? rq boost id =
      some { chunk_id := c₀.chunk_id
             doc_id := c₀.doc_id
             text := c₀.text
             score := (cs.foldl (fun a c => max a c.score) c₀.score) *
               (1 + boost * ((1 + (cs.length : ℚ)) - 1))
             metadata := c₀.metadata
             ord := c₀.ord }
    ∧ ((deduplicateChunks rq maxReturned boost).1.map (·.chunk_id)).Nodup := by
  constructor
  · rw [mergedChunk?_eq_lookup, lookupEntry_buildChunkMap rq id c₀ cs hocc]
    simp only [Option.map_some', mkBoosted, Option.some.injEq]
    push_cast
    ring_nf
  · have h1 : ((boostedChunks rq boost).map (·.chunk_id)).Nodup := by
      rw [boostedChunks_map_chunk_id]
      exact buildChunkMap_keys_nodup rq
    have hperm : List.Perm ((boostedChunks rq boost).insertionSort scoreGe)
        (boostedChunks rq boost) :=
      List.perm_insertionSort _ _
    have h2 : (((boostedChunks rq boost).insertionSort scoreGe).map (·.chunk_id)).Nodup :=
      ((hperm.map (·.chunk_id)).nodup_iff).mpr h1
    rw [deduplicateChunks_fst, List.map_take]
    exact (List.take_sublist _ _).nodup h2

theorem multiQuery_merged_fields_from_first_witness :
    occurrences 5 [("qa", [exChunk 5 "first" (1/2)]), ("qb", [exChunk 5 "second" (9/10)])] =
      [exChunk 5 "first" (1/2), exChunk 5 "second" (9/10)]
    ∧ (exChunk 5 "first" (1/2)).score < (exChunk 5 "second" (9/10)).score
    ∧ (mergedChunk? [("qa", [exChunk 5 "first" (1/2)]), ("qb", [exChunk 5 "second" (9/10)])]
          (1/5) 5 =
        some { chunk_id := (exChunk 5 "first" (1/2)).chunk_id
               doc_id := (exChunk 5 "first" (1/2)).doc_id
               text := (exChunk 5 "first" (1/2)).text
               score := ([exChunk 5 "second" (9/10)].foldl (fun a c => max a c.score)
                   (exChunk 5 "first" (1/2)).score) *
                 (1 + (1/5) * ((1 + (([exChunk 5 "second" (9/10)] : List RetrievedChunk).length
                     : ℚ)) - 1))
               metadata := (exChunk 5 "first" (1/2)).metadata
               ord := (exChunk 5 "first" (1/2)).ord }
        ∧ ((deduplicateChunks [("qa", [exChunk 5 "first" (1/2)]),
              ("qb", [exChunk 5 "second" (9/10)])] 15 (1/5)).1.map (·.chunk_id)).Nodup) :=
  ⟨by norm_num [occurrences, flattenResults, exChunk], by norm_num [exChunk],
    multiQuery_merged_fields_from_first _ 15 (1/5) 5 (exChunk 5 "first" (1/2))
      [exChunk 5 "second" (9/10)] (by norm_num [occurrences, flattenResults, exChunk])⟩

/-! ### Claim theorems: the multi-query tool -/

theorem lookup_fanout (f : String → RetrievalOutcome) (qs : List String) (q : String) :
    List.lookup q (fanout f qs) = if q ∈ qs then some (outcomeChunks (f q)) else none := by
  induction qs with
  | nil => rfl
  | cons q' qs ih =>
      simp only [fanout, List.map_cons, List.lookup, List.mem_cons]
      by_cases h : q = q'
      · subst h
        simp
      · have hbe : (q == q') = false := beq_false_of_ne h
        simp only [hbe]
        have ih' : List.lookup q (List.map (fun r => (r, outcomeChunks (f r))) qs) =
            if q ∈ qs then some (outcomeChunks (f q)) else none := ih
        rw [ih']
        by_cases hm : q ∈ qs
        · rw [if_pos hm, if_pos (Or.inr hm)]
        · rw [if_neg hm, if_neg ?_]
          rintro (h1 | h2)
          · exact h h1
          · exact hm h2

theorem fanout_congr (f g : String → RetrievalOutcome) (qs : List String)
    (h : ∀ q ∈ qs, outcomeChunks (f q) = outcomeChunks (g q)) :
    fanout f qs = fanout g qs := by
  unfold fanout
  exact List.map_congr_left (fun q hq => by rw [h q hq])

theorem retrieveForQueries_results (maxReturned : Nat) (boost : ℚ)
    (f : String → RetrievalOutcome) (qs : List String) (h : qs ≠ []) :
    (retrieveForQueries maxReturned boost f qs).results = fanout f (qs.take 5) ∧
      (retrieveForQueries maxReturned boost f qs).dispatched = qs.take 5 ∧
      (retrieveForQueries maxReturned boost f qs).reply =
        .ok (deduplicateChunks (fanout f (qs.take 5)) maxReturned boost).1 := by
  have h0 : ¬ qs.length < 1 := by
    have := List.length_pos.mpr h
    omega
  by_cases h5 : qs.length > 5
  · simp only [retrieveForQueries, if_neg h0, if_pos h5]
    simp
  · have htake : qs.take 5 = qs := List.take_of_length_le (by omega)
    simp only [retrieveForQueries, if_neg h0, if_neg h5, htake]
    simp

/-- C5: the tool rejects an empty query list with the visible error string
and performs no retrieval (the run is independent of the retriever and its
results dict stays empty); a list of more than 5 queries is processed as
exactly its first 5, in the order supplied. -/
theorem multiQuery_tool_validation (maxReturned : Nat) (boost : ℚ) :
    (∀ f, retrieveForQueries maxReturned boost f [] =
        { reply := .error "Error: At least one query is required."
          dispatched := []
          results := [] })
    ∧ ∀ f (qs : List String), qs.length > 5 →
        (retrieveForQueries maxReturned boost f qs).dispatched = qs.take 5 ∧
          (retrieveForQueries maxReturned boost f qs).results = fanout f (qs.take 5) := by
  constructor
  · intro f
    rfl
  · intro f qs h5
    have h : qs ≠ [] := by
      intro hnil
      rw [hnil] at h5
      simp at h5
    obtain ⟨hr, hd, _⟩ := retrieveForQueries_results maxReturned boost f qs h
    exact ⟨hd, hr⟩

theorem multiQuery_tool_validation_witness :
    (retrieveForQueries 15 (1/5) (fun _ => .ok []) [] =
        { reply := .error "Error: At least one query is required."
          dispatched := []
          results := [] })
    ∧ (["a", "b", "c", "d", "e", "f"] : List String).length > 5
    ∧ ((retrieveForQueries 15 (1/5) (fun _ => .ok [])
          ["a", "b", "c", "d", "e", "f"]).dispatched =
        (["a", "b", "c", "d", "e", "f"] : List String).take 5 ∧
       (retrieveForQueries 15 (1/5) (fun _ => .ok [])
          ["a", "b", "c", "d", "e", "f"]).results =
        fanout (fun _ => .ok []) ((["a", "b", "c", "d", "e", "f"] : List String).take 5))
    ∧ (["a", "b", "c", "d", "e", "f"] : List String).take 5 = ["a", "b", "c", "d", "e"] :=
  ⟨(multiQuery_tool_validation 15 (1/5)).1 _, by decide,
    (multiQuery_tool_validation 15 (1/5)).2 _ _ (by decide), by decide⟩

/-- C4: a sub-query whose retrieval raises contributes an empty result list
under its own key, every other sub-query's results are unaffected, and the
tool call as a whole still succeeds — the run is identical to one in which
the failing sub-query had returned no chunks. -/
theorem multiQuery_failure_isolation (maxReturned : Nat) (boost : ℚ)
    (f : String → RetrievalOutcome) (qs : List String) (q : String) (msg : String)
    (hfail : f q = .error msg) :
    retrieveForQueries maxReturned boost f qs =
      retrieveForQueries maxReturned boost (fun q' => if q' = q then .ok [] else f q') qs
    ∧ (q ∈ qs.take 5 →
        List.lookup q (retrieveForQueries maxReturned boost f qs).results = some [])
    ∧ (∀ q' ∈ qs.take 5, q' ≠ q →
        List.lookup q' (retrieveForQueries maxReturned boost f qs).results =
          some (outcomeChunks (f q')))
    ∧ (qs ≠ [] → ∃ cs, (retrieveForQueries maxReturned boost f qs).reply = .ok cs) := by
  have hpt : ∀ qs' : List String,
      fanout f qs' = fanout (fun q' => if q' = q then .ok [] else f q') qs' := by
    intro qs'
    refine fanout_congr _ _ _ ?_
    intro x _
    by_cases hxq : x = q
    · subst hxq
      rw [hfail, if_pos rfl]
      rfl
    · rw [if_neg hxq]
  refine ⟨?_, ?_, ?_, ?_⟩
  · by_cases h : qs = []
    · subst h
      rfl
    · obtain ⟨hr, hd, hrep⟩ := retrieveForQueries_results maxReturned boost f qs h
      obtain ⟨hr', hd', hrep'⟩ := retrieveForQueries_results maxReturned boost
        (fun q' => if q' = q then .ok [] else f q') qs h
      have : (retrieveForQueries maxReturned boost f qs).reply =
          (retrieveForQueries maxReturned boost
            (fun q' => if q' = q then .ok [] else f q') qs).reply := by
        rw [hrep, hrep', hpt]
      cases hA : retrieveForQueries maxReturned boost f qs
      cases hB : retrieveForQueries maxReturned boost
        (fun q' => if q' = q then .ok [] else f q') qs
      simp only [hA, hB] at this hr hd hr' hd'
      simp [this, hr, hd, hr', hd', hpt]
  · intro hq
    have h : qs ≠ [] := by
      intro hnil
      rw [hnil] at hq
      simp at hq
    obtain ⟨hr, _, _⟩ := retrieveForQueries_results maxReturned boost f qs h
    rw [hr, lookup_fanout, if_pos hq, hfail]
    rfl
  · intro q' hq' hne
    have h : qs ≠ [] := by
      intro hnil
      rw [hnil] at hq'
      simp at hq'
    obtain ⟨hr, _, _⟩ := retrieveForQueries_results maxReturned boost f qs h
    rw [hr, lookup_fanout, if_pos hq']
  · intro h
    obtain ⟨_, _, hrep⟩ := retrieveForQueries_results maxReturned boost f qs h
    exact ⟨_, hrep⟩

theorem multiQuery_failure_isolation_witness :
    (fun s => if s = "b" then (.error "boom" : RetrievalOutcome) else .ok []) "b" =
      .error "boom"
    ∧ "b" ∈ (["a", "b", "c"] : List String).take 5
    ∧ List.lookup "b" (retrieveForQueries 15 (1/5)
        (fun s => if s = "b" then .error "boom" else .ok []) ["a", "b", "c"]).results = some []
    ∧ (∃ cs, (retrieveForQueries 15 (1/5)
        (fun s => if s = "b" then .error "boom" else .ok []) ["a", "b", "c"]).reply =
          .ok cs) :=
  ⟨rfl, by decide,
    (multiQuery_failure_isolation 15 (1/5) _ ["a", "b", "c"] "b" "boom" rfl).2.1 (by decide),
    (multiQuery_failure_isolation 15 (1/5) _ ["a", "b", "c"] "b" "boom" rfl).2.2.2
      (by decide)⟩

/-! ### Substring characterization -/

theorem isPrefixOf_eq_true_iff (n : List Char) :
    ∀ h : List Char, n.isPrefixOf h = true ↔ ∃ t, h = n ++ t := by
  induction n with
  | nil => intro h; simp [List.isPrefixOf]
  | cons c n ih =>
      intro h
      cases h with
      | nil => simp [List.isPrefixOf]
      | cons c' h' =>
          simp only [List.isPrefixOf, Bool.and_eq_true, beq_iff_eq, ih, List.cons_append,
            List.cons.injEq]
          constructor
          · rintro ⟨rfl, t, rfl⟩
            exact ⟨t, rfl, rfl⟩
          · rintro ⟨t, rfl, rfl⟩
            exact ⟨rfl, t, rfl⟩

theorem isSeg_eq_true_iff (n : List Char) :
    ∀ h : List Char, isSeg n h = true ↔ ∃ pre post, h = pre ++ n ++ post := by
  intro h
  induction h with
  | nil =>
      simp only [isSeg, List.isEmpty_iff]
      constructor
      · rintro rfl
        exact ⟨[], [], rfl⟩
      · rintro ⟨pre, post, hp⟩
        rcases List.append_eq_nil.mp (List.append_eq_nil.mp hp.symm).1 with ⟨-, h2⟩
        exact h2
  | cons c t ih =>
      simp only [isSeg, Bool.or_eq_true, isPrefixOf_eq_true_iff, ih]
      constructor
      · rintro (⟨post, hp⟩ | ⟨pre, post, hp⟩)
        · exact ⟨[], post, by simpa using hp⟩
        · exact ⟨c :: pre, post, by simp [hp]⟩
      · rintro ⟨pre, post, hp⟩
        cases pre with
        | nil => exact Or.inl ⟨post, by simpa using hp⟩
        | cons c' pre' =>
            right
            rw [List.cons_append, List.cons_append] at hp
            injection hp with h1 h2
            exact ⟨pre', post, h2⟩

/-! ### Claim theorems: retrieval filters -/

/-- C6 (code divergence): the SQL built by both retrievers never consults
the speaker filter — the WHERE clause is invariant under changing a row's
speaker, and a concrete matching row whose speaker does not contain the
filter value case-insensitively is still returned by both queries. -/
theorem retrieval_speaker_filter_ignored :
    (∀ (fl : Filters) (r : Row) (s : String),
        ftsWhere (some fl) { r with speaker := s } = ftsWhere (some fl) r
        ∧ vectorWhere (some fl) { r with speaker := s } = vectorWhere (some fl) r)
    ∧ ftsQuery [exRow "Alice" 5] (some { speaker := some "Bob" }) 50 = [exRow "Alice" 5]
    ∧ vectorQuery [exRow "Alice" 5] (some { speaker := some "Bob" }) 50 = [exRow "Alice" 5]
    ∧ strContainsCI (exRow "Alice" 5).speaker "Bob" = false := by
  refine ⟨?_, by decide, by decide, by decide⟩
  intro fl r s
  constructor
  · rfl
  · rfl

/-- C7 counterexample: a document published exactly at `end_date` passes the
retrieval filter, so the published-at constraint is not exclusive at the
upper bound as the half-open claim requires. -/
theorem retrieval_date_range_cex :
    ftsQuery [exRow "Alice" 10] (some { start_date := some 0, end_date := some 10 }) 50 =
      [exRow "Alice" 10]
    ∧ ¬ ((exRow "Alice" 10).published_at < 10) := by
  refine ⟨by decide, by decide⟩

/-- C7 (amended): both retrievers apply the published-at constraint as a
closed range — inclusive lower bound AND inclusive upper bound. -/
theorem retrieval_date_range_closed (s e : Int) (r : Row) :
    (ftsWhere (some { start_date := some s, end_date := some e }) r = true ↔
      r.tsvMatches = true ∧ s ≤ r.published_at ∧ r.published_at ≤ e)
    ∧ (vectorWhere (some { start_date := some s, end_date := some e }) r = true ↔
      s ≤ r.published_at ∧ r.published_at ≤ e) := by
  constructor
  · simp [ftsWhere, filterConds, and_assoc]
  · simp [vectorWhere, filterConds, and_assoc]

theorem retrieval_date_range_closed_witness :
    (ftsWhere (some { start_date := some 0, end_date := some 10 }) (exRow "Alice" 10) = true ↔
      (exRow "Alice" 10).tsvMatches = true ∧ 0 ≤ (exRow "Alice" 10).published_at ∧
        (exRow "Alice" 10).published_at ≤ 10)
    ∧ (vectorWhere (some { start_date := some 0, end_date := some 10 }) (exRow "Alice" 10) =
        true ↔
      0 ≤ (exRow "Alice" 10).published_at ∧ (exRow "Alice" 10).published_at ≤ 10) :=
  retrieval_date_range_closed 0 10 (exRow "Alice" 10)

/-! ### Claim theorems: filter-extraction comparison -/

/-- C8 counterexample: with expected source "youtube" and actual source
"tube", the actual value is a substring of the expected one, so the claim
declares a match in either direction — but the comparison returns False
because it only tests expected-inside-actual for source (and doc_type). -/
theorem filter_compare_direction_cex :
    (compareFilters { source := some "youtube" } { source := some "tube" }).1.source = false
    ∧ pySubstr "tube".toList "youtube".toList = true := by
  refine ⟨by decide, by decide⟩

/-- C8 (amended): with both values present, speaker matches iff either
normalized value is a substring of the other; source and doc_type match iff
the normalized expected value is a substring of the normalized actual value
(one direction only); start/end dates match iff their four-character year
prefixes are equal. -/
theorem filter_compare_rules (expected actual : FilterValues) :
    (∀ es av, normalizeFilterValue expected.speaker = some es →
        normalizeFilterValue actual.speaker = some av →
        ((compareFilters expected actual).1.speaker = true ↔
          (pySubstr es av = true ∨ pySubstr av es = true)))
    ∧ (∀ es av, expected.start_date = some es → actual.start_date = some av →
        ((compareFilters expected actual).1.start_date = true ↔
          es.toList.take 4 = av.toList.take 4))
    ∧ (∀ es av, expected.end_date = some es → actual.end_date = some av →
        ((compareFilters expected actual).1.end_date = true ↔
          es.toList.take 4 = av.toList.take 4))
    ∧ (∀ es av, normalizeFilterValue expected.source = some es →
        normalizeFilterValue actual.source = some av →
        ((compareFilters expected actual).1.source = true ↔ pySubstr es av = true))
    ∧ (∀ es av, normalizeFilterValue expected.doc_type = some es →
        normalizeFilterValue actual.doc_type = some av →
        ((compareFilters expected actual).1.doc_type = true ↔ pySubstr es av = true)) := by
  refine ⟨?_, ?_, ?_, ?_, ?_⟩
  · intro es av he ha
    simp [compareFilters, he, ha]
  · intro es av he ha
    simp [compareFilters, compareDateField, he, ha]
  · intro es av he ha
    simp [compareFilters, compareDateField, he, ha]
  · intro es av he ha
    simp [compareFilters, he, ha]
  · intro es av he ha
    simp [compareFilters, he, ha]

theorem filter_compare_rules_witness :
    normalizeFilterValue (some "Musk") = some "musk".toList
    ∧ normalizeFilterValue (some "Elon Musk") = some "elon musk".toList
    ∧ ((compareFilters { speaker := some "Musk", start_date := some "2024-01-01" }
          { speaker := some "Elon Musk", start_date := some "2024-06-15" }).1.speaker = true ↔
        (pySubstr "musk".toList "elon musk".toList = true ∨
          pySubstr "elon musk".toList "musk".toList = true))
    ∧ ((compareFilters { speaker := some "Musk", start_date := some "2024-01-01" }
          { speaker := some "Elon Musk", start_date := some "2024-06-15" }).1.start_date =
            true ↔
        "2024-01-01".toList.take 4 = "2024-06-15".toList.take 4)
    ∧ pySubstr "musk".toList "elon musk".toList = true
    ∧ "2024-01-01".toList.take 4 = "2024-06-15".toList.take 4 :=
  ⟨by decide, by decide,
    (filter_compare_rules { speaker := some "Musk", start_date := some "2024-01-01" }
      { speaker := some "Elon Musk", start_date := some "2024-06-15" }).1
      "musk".toList "elon musk".toList (by decide) (by decide),
    (filter_compare_rules { speaker := some "Musk", start_date := some "2024-01-01" }
      { speaker := some "Elon Musk", start_date := some "2024-06-15" }).2.1
      "2024-01-01" "2024-06-15" rfl rfl,
    by decide, by decide⟩

/-! ### Claim theorems: retrieval metrics -/

theorem dcgAux_all_relevant (gt : List Int) (l : List Int) (hall : ∀ x ∈ l, x ∈ gt) :
    ∀ r : Nat, dcgAux gt r l = idcgAux r l.length := by
  induction l with
  | nil => intro r; rfl
  | cons x xs ih =>
      intro r
      have hx : x ∈ gt := hall x (List.mem_cons_self _ _)
      simp only [dcgAux, List.length_cons, idcgAux, if_pos hx]
      rw [ih (fun y hy => hall y (List.mem_cons_of_mem _ hy))]

theorem idcgAux_nonneg : ∀ n r : Nat, 0 ≤ idcgAux r n := by
  intro n
  induction n with
  | zero => intro r; simp [idcgAux]
  | succ n ih =>
      intro r
      simp only [idcgAux]
      have h1 : 0 ≤ 1 / Real.logb 2 ((r : ℝ) + 1) := by
        refine div_nonneg zero_le_one ?_
        refine Real.logb_nonneg (by norm_num) ?_
        have : (0 : ℝ) ≤ (r : ℝ) := Nat.cast_nonneg r
        linarith
      linarith [ih (r + 1)]

theorem idcgAux_pos (n r : Nat) (hr : 1 ≤ r) : 0 < idcgAux r (n + 1) := by
  simp only [idcgAux]
  have hlog : 0 < Real.logb 2 ((r : ℝ) + 1) := by
    refine Real.logb_pos (by norm_num) ?_
    have : (1 : ℝ) ≤ (r : ℝ) := by exact_mod_cast hr
    linarith
  have h1 : 0 < 1 / Real.logb 2 ((r : ℝ) + 1) := by positivity
  linarith [idcgAux_nonneg n (r + 1)]

/-- C9 counterexample: the empty list is a permutation of the empty ground
truth and 0 ≤ k, but every metric evaluates to 0 and MRR to None, not 1. -/
theorem metrics_empty_perm_cex :
    List.Perm ([] : List Int) []
    ∧ ([] : List Int).length ≤ 1
    ∧ recall_at_k [] [] 1 = 0
    ∧ precision_at_k [] [] 1 = 0
    ∧ hit_rate [] [] 1 = 0
    ∧ ndcg_at_k [] [] 1 = 0
    ∧ mrr [] [] = none
    ∧ recall_at_k [] [] 1 ≠ 1 := by
  refine ⟨List.Perm.refl _, by decide, rfl, rfl, rfl, ?_, rfl, ?_⟩
  · unfold ndcg_at_k
    rw [if_pos (Or.inl rfl)]
  · rw [show recall_at_k [] [] 1 = 0 from rfl]
    norm_num

/-- C9 (amended): for every k ≥ 1, if the retrieved list is a permutation
of a nonempty ground truth of at most k elements, then Recall@k,
Precision@k, HitRate@k and NDCG@k all equal 1 and MRR equals 1. -/
theorem metrics_perfect_on_permutation (retrieved ground_truth : List Int) (k : Nat)
    (_hk : 1 ≤ k) (hperm : List.Perm retrieved ground_truth) (hne : ground_truth ≠ [])
    (hlen : ground_truth.length ≤ k) :
    recall_at_k retrieved ground_truth k = 1
    ∧ precision_at_k retrieved ground_truth k = 1
    ∧ hit_rate retrieved ground_truth k = 1
    ∧ ndcg_at_k retrieved ground_truth k = 1
    ∧ mrr retrieved ground_truth = some 1 := by
  have hlen' : retrieved.length = ground_truth.length := hperm.length_eq
  have hrne : retrieved ≠ [] := by
    intro h0
    rw [h0] at hlen'
    exact hne (List.length_eq_zero.mp hlen'.symm)
  have hall : ∀ x ∈ retrieved, x ∈ ground_truth := fun x hx => hperm.subset hx
  have htake : retrieved.take k = retrieved :=
    List.take_of_length_le (by rw [hlen']; exact hlen)
  have hgtlen : ground_truth.length ≠ 0 := fun h0 => hne (List.length_eq_zero.mp h0)
  have hcount : retrieved.countP (fun x => decide (x ∈ ground_truth)) = retrieved.length :=
    List.countP_eq_length.mpr (fun a ha => by simpa using hall a ha)
  have hcast : ((ground_truth.length : ℚ)) ≠ 0 := Nat.cast_ne_zero.mpr hgtlen
  refine ⟨?_, ?_, ?_, ?_, ?_⟩
  · unfold recall_at_k
    rw [if_neg hne, if_neg hrne, htake, hcount, hlen']
    exact div_self hcast
  · unfold precision_at_k
    rw [if_neg hrne, if_neg hne, htake, hcount]
    rw [hlen']
    exact div_self hcast
  · unfold hit_rate
    rw [if_neg (by simp [hrne, hne]), htake]
    cases retrieved with
    | nil => exact absurd rfl hrne
    | cons y ys =>
        have hy : y ∈ ground_truth := hall y (List.mem_cons_self _ _)
        rw [if_pos]
        simp [List.any_cons, hy]
  · unfold ndcg_at_k
    rw [if_neg (by simp [hrne, hne])]
    simp only [htake]
    rw [dcgAux_all_relevant ground_truth retrieved hall 1, hlen',
      min_eq_left hlen]
    obtain ⟨n, hn⟩ : ∃ n, ground_truth.length = n + 1 := by
      cases hgl : ground_truth.length with
      | zero => exact absurd hgl hgtlen
      | succ n => exact ⟨n, rfl⟩
    rw [hn]
    have hpos := idcgAux_pos n 1 le_rfl
    rw [if_neg (ne_of_gt hpos), if_neg (ne_of_gt hpos)]
    exact div_self (ne_of_gt hpos)
  · unfold mrr
    rw [if_neg (by simp [hrne, hne])]
    cases retrieved with
    | nil => exact absurd rfl hrne
    | cons y ys =>
        have hy : y ∈ ground_truth := hall y (List.mem_cons_self _ _)
        simp only [mrrAux, if_pos hy, Nat.cast_one]
        norm_num

theorem metrics_perfect_on_permutation_witness :
    1 ≤ 2
    ∧ List.Perm [1, 2] ([2, 1] : List Int)
    ∧ ([2, 1] : List Int) ≠ []
    ∧ ([2, 1] : List Int).length ≤ 2
    ∧ (recall_at_k [1, 2] [2, 1] 2 = 1
       ∧ precision_at_k [1, 2] [2, 1] 2 = 1
       ∧ hit_rate [1, 2] [2, 1] 2 = 1
       ∧ ndcg_at_k [1, 2] [2, 1] 2 = 1
       ∧ mrr [1, 2] [2, 1] = some 1) :=
  ⟨by decide, by decide, by decide, by decide,
    metrics_perfect_on_permutation [1, 2] [2, 1] 2 (by decide) (by decide) (by decide)
      (by decide)⟩

/-! ### Claim theorems: completion-order determinism of the merge -/

theorem flattenResults_perm {rq rq' : ResultsByQuery} (h : List.Perm rq rq') :
    List.Perm (flattenResults rq) (flattenResults rq') :=
  (h.map Prod.snd).flatten

theorem occurrences_perm (id : Int) {rq rq' : ResultsByQuery} (h : List.Perm rq rq') :
    List.Perm (occurrences id rq) (occurrences id rq') :=
  (flattenResults_perm h).filter _

theorem le_foldlMax (cs : List RetrievedChunk) :
    ∀ q : ℚ, q ≤ cs.foldl (fun a c => max a c.score) q := by
  induction cs with
  | nil => intro q; exact le_refl q
  | cons c cs ih =>
      intro q
      exact le_trans (le_max_left q c.score) (ih _)

theorem mem_le_foldlMax (cs : List RetrievedChunk) :
    ∀ q : ℚ, ∀ c ∈ cs, c.score ≤ cs.foldl (fun a c => max a c.score) q := by
  induction cs with
  | nil => intro q c hc; cases hc
  | cons c' cs ih =>
      intro q c hc
      rcases List.mem_cons.mp hc with rfl | hc
      · exact le_trans (le_max_right q c.score) (le_foldlMax cs _)
      · exact ih _ c hc

theorem foldlMax_mem (cs : List RetrievedChunk) :
    ∀ q : ℚ, cs.foldl (fun a c => max a c.score) q = q ∨
      cs.foldl (fun a c => max a c.score) q ∈ cs.map (·.score) := by
  induction cs with
  | nil => intro q; exact Or.inl rfl
  | cons c cs ih =>
      intro q
      rw [List.foldl_cons]
      rcases ih (max q c.score) with h | h
      · rw [h]
        rcases max_choice q c.score with h' | h'
        · exact Or.inl h'
        · exact Or.inr (by rw [h']; exact List.mem_cons_self _ _)
      · exact Or.inr (List.mem_cons_of_mem _ h)

theorem maxScoreIn_spec (id : Int) (rq : ResultsByQuery) (c₀ : RetrievedChunk)
    (cs : List RetrievedChunk) (hocc : occurrences id rq = c₀ :: cs) :
    maxScoreIn id rq ∈ (occurrences id rq).map (·.score)
    ∧ ∀ c ∈ occurrences id rq, c.score ≤ maxScoreIn id rq := by
  have hval : maxScoreIn id rq = cs.foldl (fun a c' => max a c'.score) c₀.score := by
    unfold maxScoreIn
    rw [hocc]
  constructor
  · rw [hval, hocc, List.map_cons]
    rcases foldlMax_mem cs c₀.score with h | h
    · rw [h]
      exact List.mem_cons_self _ _
    · exact List.mem_cons_of_mem _ h
  · intro c hc
    rw [hocc] at hc
    rw [hval]
    rcases List.mem_cons.mp hc with rfl | hc
    · exact le_foldlMax cs _
    · exact mem_le_foldlMax cs _ c hc

theorem maxScoreIn_perm (id : Int) {rq rq' : ResultsByQuery} (hperm : List.Perm rq rq')
    (hocc : occurrences id rq ≠ []) : maxScoreIn id rq = maxScoreIn id rq' := by
  have hp := occurrences_perm id hperm
  obtain ⟨c₀, cs, h1⟩ : ∃ c₀ cs, occurrences id rq = c₀ :: cs := by
    cases h : occurrences id rq with
    | nil => exact absurd h hocc
    | cons a b => exact ⟨a, b, rfl⟩
  obtain ⟨c₀', cs', h2⟩ : ∃ c₀' cs', occurrences id rq' = c₀' :: cs' := by
    cases h : occurrences id rq' with
    | nil =>
        rw [h] at hp
        exact absurd (hp.eq_nil) hocc
    | cons a b => exact ⟨a, b, rfl⟩
  obtain ⟨hm1, hub1⟩ := maxScoreIn_spec id rq c₀ cs h1
  obtain ⟨hm2, hub2⟩ := maxScoreIn_spec id rq' c₀' cs' h2
  have hle : maxScoreIn id rq ≤ maxScoreIn id rq' := by
    obtain ⟨c, hc, hcs⟩ := List.mem_map.mp hm1
    have : c ∈ occurrences id rq' := (hp.mem_iff).mp hc
    rw [← hcs]
    exact hub2 c this
  have hge : maxScoreIn id rq' ≤ maxScoreIn id rq := by
    obtain ⟨c, hc, hcs⟩ := List.mem_map.mp hm2
    have : c ∈ occurrences id rq := (hp.mem_iff).mpr hc
    rw [← hcs]
    exact hub1 c this
  exact le_antisymm hle hge

theorem mkBoosted_congr (boost : ℚ) (n : Nat) (s : ℚ) {c c' : RetrievedChunk}
    (h : sansScore c = sansScore c') :
    mkBoosted boost (c, n, s) = mkBoosted boost (c', n, s) := by
  have h1 : c.chunk_id = c'.chunk_id := by
    have := congrArg RetrievedChunk.chunk_id h
    simpa [sansScore] using this
  have h2 : c.doc_id = c'.doc_id := by
    have := congrArg RetrievedChunk.doc_id h
    simpa [sansScore] using this
  have h3 : c.text = c'.text := by
    have := congrArg RetrievedChunk.text h
    simpa [sansScore] using this
  have h4 : c.metadata = c'.metadata := by
    have := congrArg RetrievedChunk.metadata h
    simpa [sansScore] using this
  have h5 : c.ord = c'.ord := by
    have := congrArg RetrievedChunk.ord h
    simpa [sansScore] using this
  simp [mkBoosted, h1, h2, h3, h4, h5]

theorem occurrences_head_mem_flatten (id : Int) (rq : ResultsByQuery) (c₀ : RetrievedChunk)
    (cs : List RetrievedChunk) (hocc : occurrences id rq = c₀ :: cs) :
    c₀ ∈ flattenResults rq ∧ c₀.chunk_id = id := by
  have hmem : c₀ ∈ occurrences id rq := by
    rw [hocc]
    exact List.mem_cons_self _ _
  unfold occurrences at hmem
  obtain ⟨hm, hp⟩ := List.mem_filter.mp hmem
  exact ⟨hm, by simpa using hp⟩

theorem mergedChunk?_perm (boost : ℚ) {rq rq' : ResultsByQuery} (hperm : List.Perm rq rq')
    (hcontent : ContentConsistent rq) (id : Int) :
    mergedChunk? rq boost id = mergedChunk? rq' boost id := by
  have hp := occurrences_perm id hperm
  by_cases hocc : occurrences id rq = []
  · have hocc' : occurrences id rq' = [] := by
      rw [hocc] at hp
      exact hp.symm.eq_nil
    rw [mergedChunk?_eq_lookup, mergedChunk?_eq_lookup,
      lookupEntry_buildChunkMap_none rq id hocc, lookupEntry_buildChunkMap_none rq' id hocc']
  · obtain ⟨c₀, cs, h1⟩ : ∃ c₀ cs, occurrences id rq = c₀ :: cs := by
      cases h : occurrences id rq with
      | nil => exact absurd h hocc
      | cons a b => exact ⟨a, b, rfl⟩
    obtain ⟨c₀', cs', h2⟩ : ∃ c₀' cs', occurrences id rq' = c₀' :: cs' := by
      cases h : occurrences id rq' with
      | nil =>
          rw [h] at hp
          exact absurd (hp.eq_nil) hocc
      | cons a b => exact ⟨a, b, rfl⟩
    rw [mergedChunk?_eq_lookup, mergedChunk?_eq_lookup,
      lookupEntry_buildChunkMap rq id c₀ cs h1, lookupEntry_buildChunkMap rq' id c₀' cs' h2]
    have hlen : cs.length = cs'.length := by
      have := hp.length_eq
      rw [h1, h2] at this
      simpa using this
    have hmax : cs.foldl (fun a c => max a c.score) c₀.score =
        cs'.foldl (fun a c => max a c.score) c₀'.score := by
      have e1 : maxScoreIn id rq = cs.foldl (fun a c' => max a c'.score) c₀.score := by
        unfold maxScoreIn
        rw [h1]
      have e2 : maxScoreIn id rq' = cs'.foldl (fun a c' => max a c'.score) c₀'.score := by
        unfold maxScoreIn
        rw [h2]
      rw [← e1, ← e2]
      exact maxScoreIn_perm id hperm hocc
    obtain ⟨hc₀mem, hc₀id⟩ := occurrences_head_mem_flatten id rq c₀ cs h1
    obtain ⟨hc₀'mem, hc₀'id⟩ := occurrences_head_mem_flatten id rq' c₀' cs' h2
    have hc₀'memrq : c₀' ∈ flattenResults rq := (flattenResults_perm hperm).mem_iff.mpr hc₀'mem
    have hsans : sansScore c₀ = sansScore c₀' :=
      hcontent c₀ hc₀mem c₀' hc₀'memrq (hc₀id.trans hc₀'id.symm)
    simp only [Option.map_some']
    rw [Option.some.injEq]
    calc mkBoosted boost (c₀, 1 + cs.length, cs.foldl (fun a c => max a c.score) c₀.score)
        = mkBoosted boost (c₀', 1 + cs.length, cs.foldl (fun a c => max a c.score) c₀.score) :=
          mkBoosted_congr boost _ _ hsans
      _ = mkBoosted boost (c₀', 1 + cs'.length, cs'.foldl (fun a c => max a c.score) c₀'.score) := by
          rw [hlen, hmax]

theorem boostedChunks_nodup (rq : ResultsByQuery) (boost : ℚ) :
    (boostedChunks rq boost).Nodup := by
  have h : ((boostedChunks rq boost).map (·.chunk_id)).Nodup := by
    rw [boostedChunks_map_chunk_id]
    exact buildChunkMap_keys_nodup rq
  exact List.Nodup.of_map _ h

theorem mem_boostedChunks_iff (rq : ResultsByQuery) (boost : ℚ) (x : RetrievedChunk) :
    x ∈ boostedChunks rq boost ↔
      ∃ id, occurrences id rq ≠ [] ∧ mergedChunk? rq boost id = some x := by
  constructor
  · intro hx
    obtain ⟨p, hp, rfl⟩ := List.mem_map.mp hx
    have hsome : lookupEntry p.1 (buildChunkMap rq) = some p.2 :=
      lookupEntry_of_mem_of_nodup _ _ _ (buildChunkMap_keys_nodup rq) hp
    refine ⟨p.1, ?_, ?_⟩
    · intro hocc
      rw [lookupEntry_buildChunkMap_none rq p.1 hocc] at hsome
      cases hsome
    · rw [mergedChunk?_eq_lookup, hsome]
      rfl
  · rintro ⟨id, _, hm⟩
    exact List.mem_of_find?_eq_some hm

theorem boostedChunks_perm (boost : ℚ) {rq rq' : ResultsByQuery} (hperm : List.Perm rq rq')
    (hcontent : ContentConsistent rq) :
    List.Perm (boostedChunks rq boost) (boostedChunks rq' boost) := by
  rw [List.perm_ext_iff_of_nodup (boostedChunks_nodup _ _) (boostedChunks_nodup _ _)]
  intro x
  rw [mem_boostedChunks_iff, mem_boostedChunks_iff]
  constructor
  · rintro ⟨id, hocc, hm⟩
    refine ⟨id, ?_, ?_⟩
    · intro h0
      have hp := occurrences_perm id hperm
      rw [h0] at hp
      exact hocc hp.eq_nil
    · rw [← mergedChunk?_perm boost hperm hcontent id]
      exact hm
  · rintro ⟨id, hocc, hm⟩
    refine ⟨id, ?_, ?_⟩
    · intro h0
      have hp := occurrences_perm id hperm
      rw [h0] at hp
      exact hocc hp.symm.eq_nil
    · rw [mergedChunk?_perm boost hperm hcontent id]
      exact hm

theorem sorted_unique_of_nodup_scores {l₁ l₂ : List RetrievedChunk}
    (hperm : List.Perm l₁ l₂) (hs₁ : List.Sorted scoreGe l₁) (hs₂ : List.Sorted scoreGe l₂)
    (hnd : (l₁.map (·.score)).Nodup) : l₁ = l₂ := by
  have hnd₂ : (l₂.map (·.score)).Nodup := ((hperm.map _).nodup_iff).mp hnd
  have hstrict : ∀ {l : List RetrievedChunk}, List.Sorted scoreGe l →
      (l.map (·.score)).Nodup → List.Pairwise (fun a b => b.score < a.score) l := by
    intro l hs hn
    have hne : List.Pairwise (fun a b => a.score ≠ b.score) l := List.pairwise_map.mp hn
    refine (hs.and hne).imp ?_
    rintro a b ⟨hle, hneq⟩
    exact lt_of_le_of_ne hle (fun h => hneq h.symm)
  haveI : IsAntisymm RetrievedChunk (fun a b => b.score < a.score) :=
    ⟨fun a b h h' => absurd (lt_trans h h') (lt_irrefl _)⟩
  exact List.eq_of_perm_of_sorted hperm (hstrict hs₁ hnd) (hstrict hs₂ hnd₂)

/-- C3 (amended): the merged chunk list is independent of the order in
which the parallel sub-query retrievals complete, provided any two
occurrences of the same chunk identifier agree on their non-score fields
and no two distinct merged chunks tie on merged score.  (With ties, the
order of the tied chunks follows completion order — see the
counterexample.) -/
theorem multiQuery_merge_deterministic (rq rq' : ResultsByQuery) (maxReturned : Nat)
    (boost : ℚ) (hperm : List.Perm rq rq') (hcontent : ContentConsistent rq)
    (hscores : ((boostedChunks rq boost).map (·.score)).Nodup) :
    (deduplicateChunks rq maxReturned boost).1 = (deduplicateChunks rq' maxReturned boost).1 := by
  rw [deduplicateChunks_fst, deduplicateChunks_fst]
  have hb := boostedChunks_perm boost hperm hcontent
  have hsp : List.Perm ((boostedChunks rq boost).insertionSort scoreGe)
      ((boostedChunks rq' boost).insertionSort scoreGe) :=
    ((List.perm_insertionSort _ _).trans hb).trans (List.perm_insertionSort _ _).symm
  have hnd₁ : (((boostedChunks rq boost).insertionSort scoreGe).map (·.score)).Nodup :=
    (((List.perm_insertionSort scoreGe _).map (·.score)).nodup_iff).mpr hscores
  have heq : (boostedChunks rq boost).insertionSort scoreGe =
      (boostedChunks rq' boost).insertionSort scoreGe :=
    sorted_unique_of_nodup_scores hsp (List.sorted_insertionSort _ _)
      (List.sorted_insertionSort _ _) hnd₁
  rw [heq]

/-- C3 counterexample: two sub-queries returning distinct chunks with equal
scores.  The two completion orders are permutations of each other, yet the
final merged lists differ in order, so the output is not independent of
completion order (and two identical runs may disagree). -/
theorem multiQuery_completion_order_cex :
    List.Perm (["a", "b"] : List String) ["b", "a"]
    ∧ fanout (fun q => if q = "a" then .ok [exChunk 1 "x" 1] else .ok [exChunk 2 "y" 1])
        ["a", "b"] =
      [("a", [exChunk 1 "x" 1]), ("b", [exChunk 2 "y" 1])]
    ∧ fanout (fun q => if q = "a" then .ok [exChunk 1 "x" 1] else .ok [exChunk 2 "y" 1])
        ["b", "a"] =
      [("b", [exChunk 2 "y" 1]), ("a", [exChunk 1 "x" 1])]
    ∧ (deduplicateChunks [("a", [exChunk 1 "x" 1]), ("b", [exChunk 2 "y" 1])] 15 (1/5)).1 ≠
      (deduplicateChunks [("b", [exChunk 2 "y" 1]), ("a", [exChunk 1 "x" 1])] 15 (1/5)).1 := by
  refine ⟨List.Perm.swap _ _ _, by decide, by decide, ?_⟩
  norm_num [deduplicateChunks, boostedChunks, buildChunkMap, dedupStep, lookupEntry,
    updateEntry, mkBoosted, exChunk, List.insertionSort, List.orderedInsert, scoreGe,
    flattenResults]

theorem multiQuery_merge_deterministic_witness :
    List.Perm ([("a", [exChunk 1 "x" 1]), ("b", [exChunk 2 "y" 2])] : ResultsByQuery)
      [("b", [exChunk 2 "y" 2]), ("a", [exChunk 1 "x" 1])]
    ∧ ContentConsistent [("a", [exChunk 1 "x" 1]), ("b", [exChunk 2 "y" 2])]
    ∧ ((boostedChunks [("a", [exChunk 1 "x" 1]), ("b", [exChunk 2 "y" 2])] (1/5)).map
        (·.score)).Nodup
    ∧ (deduplicateChunks [("a", [exChunk 1 "x" 1]), ("b", [exChunk 2 "y" 2])] 15 (1/5)).1 =
      (deduplicateChunks [("b", [exChunk 2 "y" 2]), ("a", [exChunk 1 "x" 1])] 15 (1/5)).1 := by
  have hperm : List.Perm ([("a", [exChunk 1 "x" 1]), ("b", [exChunk 2 "y" 2])] : ResultsByQuery)
      [("b", [exChunk 2 "y" 2]), ("a", [exChunk 1 "x" 1])] := List.Perm.swap _ _ _
  have hcontent : ContentConsistent [("a", [exChunk 1 "x" 1]), ("b", [exChunk 2 "y" 2])] := by
    simp only [ContentConsistent, flattenResults]
    decide
  have hscores : ((boostedChunks [("a", [exChunk 1 "x" 1]), ("b", [exChunk 2 "y" 2])]
      (1/5)).map (·.score)).Nodup := by
    norm_num [boostedChunks, buildChunkMap, dedupStep, lookupEntry, mkBoosted, exChunk,
      List.nodup_cons]
  exact ⟨hperm, hcontent, hscores,
    multiQuery_merge_deterministic _ _ 15 (1/5) hperm hcontent hscores⟩
